import Mathlib

/-!
Verification of the retrieval-augmentation core of the Ai-Codex repository:
source chunking (`FileProcessorService.parseCodeChunks`), embedding-vector
management (`EmbeddingService.generateEmbeddingsForFile` / `storeEmbeddings`),
similarity search (`EmbeddingService.findSimilarChunks` / `cosineSimilarity`)
and context assembly (`ContextService.buildContextForQuery` /
`buildPromptWithContext`).

The TypeScript source is shallowly embedded: JavaScript strings become `String`,
JavaScript numbers in embedding vectors become `ℚ`, fallible external calls
(Mongo queries, the Gemini embedding API) become `Except Unit` parameters, and
the stable `Array.prototype.sort` becomes `List.mergeSort`.  JavaScript string
primitives that the source uses (`split('\n')`, `trim()`, `substring`,
`toLowerCase`, `includes`) are embedded as structurally recursive functions over
`String.data` so that all definitions are executable.
-/

/-! ## JavaScript string primitives -/

/-- JS `content.split('\n')` on the character list: split at every newline.
Always returns at least one (possibly empty) piece, like the JS original. -/
def splitNl : List Char → List (List Char)
  | [] => [[]]
  | c :: cs =>
    let r := splitNl cs
    if c = '\n' then [] :: r
    else
      match r with
      | [] => [[c]]
      | l :: ls => (c :: l) :: ls

/-- JS `content.split('\n')` producing strings. -/
def splitNlStr (s : String) : List String :=
  (splitNl s.data).map fun l => ⟨l⟩

/-- JS `String.prototype.trim`: strip leading and trailing whitespace. -/
def jsTrim (s : String) : String :=
  ⟨(((s.data.dropWhile Char.isWhitespace).reverse.dropWhile Char.isWhitespace).reverse)⟩

/-- JS `s.substring(0, n)`. -/
def strTake (s : String) (n : Nat) : String :=
  ⟨s.data.take n⟩

/-- JS `String.prototype.toLowerCase` (ASCII model). -/
def jsToLower (s : String) : String :=
  ⟨s.data.map Char.toLower⟩

/-- Does `p` occur as a prefix of `l`? -/
def listStartsWith : List Char → List Char → Bool
  | [], _ => true
  | _ :: _, [] => false
  | p :: ps, c :: cs => p == c && listStartsWith ps cs

/-- Does `pat` occur as a contiguous substring of `l`? -/
def hasSubstr : List Char → List Char → Bool
  | [], pat => pat.isEmpty
  | l@(_ :: rest), pat => listStartsWith pat l || hasSubstr rest pat

/-- JS `s.includes(pat)`. -/
def jsIncludes (s pat : String) : Bool :=
  hasSubstr s.data pat.data

/-- JS `Array.prototype.join(', ')`. -/
def joinComma : List String → String
  | [] => ""
  | [x] => x
  | x :: y :: xs => x ++ ", " ++ joinComma (y :: xs)

/-! ## Data model (`ICodeChunk` and the file record from `models/File`) -/

/-- `ICodeChunk` from `models/File`: id, content, startLine, endLine (1-based,
inclusive), structural kind tag, optional embedding vector. -/
structure CodeChunk where
  id : String
  content : String
  startLine : Nat
  endLine : Nat
  type : String
  embedding : Option (List ℚ) := none
deriving DecidableEq

/-- The slice of the Mongo file document that the core reads and writes:
`String(file._id)`, `originalName`, `language`, `content`, `chunks`. -/
structure FileRec where
  id : String
  originalName : String
  language : String
  content : String
  chunks : List CodeChunk
deriving DecidableEq

/-! ## FileProcessorService.parseCodeChunks (part_003 lines 332–395)

The regex tests of `getLanguagePatterns` are abstracted as a *matcher*
`String → Option String` mapping a trimmed line to the structural kind tag of
the first pattern it matches (`none` when no pattern matches); the chunking
loop itself is embedded faithfully.  `defaultMatcher` below embeds the
concrete generic patterns of the `default` branch. -/

/-- `\w` of JS regexes: ASCII word character. -/
def isWordChar (c : Char) : Bool :=
  c.isAlphanum || c = '_'

/-- Anchored match of `kw` followed by `\s+` followed by `\w`, i.e. the shape
of the generic patterns; the keyword alternatives are pairwise non-prefix, so
regex backtracking cannot produce any other match. -/
def keywordThenWord (kw : List Char) (cs : List Char) : Bool :=
  listStartsWith kw cs &&
    (match cs.drop kw.length with
     | c :: rest =>
       c.isWhitespace &&
         (match rest.dropWhile Char.isWhitespace with
          | d :: _ => isWordChar d
          | [] => false)
     | [] => false)

/-- The `default` branch of `getLanguagePatterns`: `/^(function|def|fn)\s+(\w+)/`
tagged `function`, then `/^(class|struct|type)\s+(\w+)/` tagged `class`;
the first pattern in the list wins. -/
def defaultMatcher (trimmed : String) : Option String :=
  if ["function", "def", "fn"].any fun kw => keywordThenWord kw.data trimmed.data then
    some "function"
  else if ["class", "struct", "type"].any fun kw => keywordThenWord kw.data trimmed.data then
    some "class"
  else none

/-- The "Add line to current chunk" step of `parseCodeChunks`: append the
(trimmed) line to the chunk text and advance `endLine`. -/
def addLine (c : CodeChunk) (line : String) (lineNumber : Nat) : CodeChunk :=
  { c with
      content := if c.content = "" then line else c.content ++ "\n" ++ line
      endLine := lineNumber }

/-- The line loop of `parseCodeChunks` (part_003 lines 339–381): state is the
remaining lines, the current 1-based line number, the currently open chunk and
the next chunk id.  On a matched line the open chunk (if any) is closed at the
previous line and a new chunk opens; every line is then appended to the open
chunk, which duplicates the matched line that just became the open chunk's
text. -/
def parseLines (matcher : String → Option String) :
    List String → Nat → Option CodeChunk → Nat → List CodeChunk
  | [], _, cur, _ =>
    (match cur with
     | some c => [c]
     | none => [])
  | l :: rest, lineNumber, cur, chunkId =>
    let line := jsTrim l
    match matcher line with
    | some ty =>
      let closed : List CodeChunk :=
        match cur with
        | some c => [{ c with endLine := lineNumber - 1 }]
        | none => []
      let opened : CodeChunk :=
        { id := "chunk_" ++ toString chunkId, content := line, startLine := lineNumber,
          endLine := lineNumber, type := ty, embedding := none }
      closed ++ parseLines matcher rest (lineNumber + 1) (some (addLine opened line lineNumber)) (chunkId + 1)
    | none =>
      match cur with
      | some c => parseLines matcher rest (lineNumber + 1) (some (addLine c line lineNumber)) chunkId
      | none => parseLines matcher rest (lineNumber + 1) none chunkId

/-- `FileProcessorService.parseCodeChunks`: run the line loop over
`content.split('\n')`; if no chunk was produced, fall back to a single chunk
of kind `other` spanning the whole file with the verbatim content. -/
def parseCodeChunks (matcher : String → Option String) (content : String) : List CodeChunk :=
  let lines := splitNlStr content
  let chunks := parseLines matcher lines 1 none 1
  if chunks.isEmpty then
    [{ id := "chunk_1", content := content, startLine := 1, endLine := lines.length,
       type := "other", embedding := none }]
  else chunks

/-- Split a line list at the first line whose trimmed text matches: returns the
non-matching prefix and, if present, the matching line with its kind tag and
the remaining lines. -/
def splitAtBoundary (matcher : String → Option String) :
    List String → List String × Option (String × String × List String)
  | [] => ([], none)
  | l :: ls =>
    match matcher (jsTrim l) with
    | some ty => ([], some (l, ty, ls))
    | none =>
      let r := splitAtBoundary matcher ls
      (l :: r.1, r.2)

/-- 1-based line number of the first structural boundary, if any. -/
def firstBoundaryLine (matcher : String → Option String) (lines : List String) : Option Nat :=
  match splitAtBoundary matcher lines with
  | (_, none) => none
  | (pre, some _) => some (pre.length + 1)

/-- The chunk freshly opened at `lineNumber` by a matched line whose trimmed
text is `t`, after the same line has also been appended to it by the
"add line" step (so `t` is duplicated unless empty). -/
def openedChunk (chunkId : Nat) (ty : String) (lineNumber : Nat) (t : String) : CodeChunk :=
  { id := "chunk_" ++ toString chunkId
    content := if t = "" then t else t ++ "\n" ++ t
    startLine := lineNumber
    endLine := lineNumber
    type := ty
    embedding := none }

/-- `isPartitionB cs s e`: the chunks `cs`, in order, exactly tile the line
range `[s, e]`: each starts where the previous ended plus one, each is a
non-empty range, and the last ends at `e`. -/
def isPartitionB : List CodeChunk → Nat → Nat → Bool
  | [], s, e => s == e + 1
  | c :: cs, s, e => c.startLine == s && decide (s ≤ c.endLine) && isPartitionB cs (c.endLine + 1) e

/-- Extension of a chunk's accumulated text by further (already trimmed)
lines, exactly as the "add line" step does. -/
def extendContent (x : String) (ts : List String) : String :=
  ts.foldl (fun a t => if a = "" then t else a ++ "\n" ++ t) x

/-- The text a chunk spanning lines `[s, e]` of `orig` carries: the trimmed
lines of the span joined by newlines, with the opening line duplicated
(degenerating when the opening line trims to the empty string). -/
def chunkTextSpec (orig : List String) (s e : Nat) : String :=
  match ((orig.drop (s - 1)).take (e + 1 - s)).map jsTrim with
  | [] => ""
  | t :: ts => extendContent (if t = "" then t else t ++ "\n" ++ t) ts

/-- Join lines with newlines, without trimming. -/
def joinNl : List String → String
  | [] => ""
  | [x] => x
  | x :: y :: xs => x ++ "\n" ++ joinNl (y :: xs)

/-- The literal text span of lines `[s, e]` of `orig`: the original lines,
original whitespace included, joined by newlines. -/
def literalSpan (orig : List String) (s e : Nat) : String :=
  joinNl ((orig.drop (s - 1)).take (e + 1 - s))

/-! ## EmbeddingService.cosineSimilarity

`Math.sqrt` on IEEE doubles is embedded as an abstract function
`sqrt : ℚ → ℚ`; the source's guard `normA === 0 || normB === 0` is tested
*after* taking the square roots, exactly as in the code. -/

/-- The loop of `cosineSimilarity` accumulating `dotProduct`. -/
def dotProduct (vecA vecB : List ℚ) : ℚ :=
  (List.zipWith (· * ·) vecA vecB).sum

/-- The loop of `cosineSimilarity` accumulating `normA` (before `Math.sqrt`). -/
def sumSquares (vec : List ℚ) : ℚ :=
  (vec.map fun x => x * x).sum

/-- `EmbeddingService.cosineSimilarity` (part_001 lines 402–425): returns 0 on
length mismatch, takes square roots of the sums of squares, returns 0 if either
is 0, otherwise divides. -/
def cosineSimilarity (sqrt : ℚ → ℚ) (vecA vecB : List ℚ) : ℚ :=
  if vecA.length ≠ vecB.length then 0
  else
    let normA := sqrt (sumSquares vecA)
    let normB := sqrt (sumSquares vecB)
    if normA = 0 ∨ normB = 0 then 0
    else dotProduct vecA vecB / (normA * normB)

/-- Division that signals division by zero instead of performing it. -/
def checkedDiv (a b : ℚ) : Option ℚ :=
  if b = 0 then none else some (a / b)

/-- `cosineSimilarity` with the final division checked: `none` would mean the
source divided by zero. -/
def cosineSimilarityChecked (sqrt : ℚ → ℚ) (vecA vecB : List ℚ) : Option ℚ :=
  if vecA.length ≠ vecB.length then some 0
  else
    let normA := sqrt (sumSquares vecA)
    let normB := sqrt (sumSquares vecB)
    if normA = 0 ∨ normB = 0 then some 0
    else checkedDiv (dotProduct vecA vecB) (normA * normB)

/-! ## Context assembly data model (`CodeContext` from context.service) -/

/-- Entry of `CodeContext.relevantFiles`. -/
structure RelevantFile where
  name : String
  language : String
  content : String
  chunks : Nat
deriving DecidableEq

/-- Entry of `CodeContext.relevantChunks`. -/
structure RelevantChunk where
  fileName : String
  content : String
  type : String
  lines : String
  similarity : Option ℚ
deriving DecidableEq

/-- `CodeContext.projectSummary`. -/
structure ProjectSummary where
  totalFiles : Nat
  languages : List String
  totalLines : Nat
  mainFiles : List String
deriving DecidableEq

/-- `CodeContext` as assembled by `ContextService`. -/
structure CodeContext where
  relevantFiles : List RelevantFile
  relevantChunks : List RelevantChunk
  projectSummary : ProjectSummary
deriving DecidableEq

/-- `ContextService.getEmptyContext`. -/
def getEmptyContext : CodeContext :=
  { relevantFiles := []
    relevantChunks := []
    projectSummary := { totalFiles := 0, languages := [], totalLines := 0, mainFiles := [] } }

/-! ## ContextService.buildPromptWithContext (part_001 lines 145–194) -/

/-- The project-overview block of the prompt template. -/
def promptHeader (ps : ProjectSummary) : String :=
  "You are an AI assistant helping with code analysis and development. Here\x27s the context of the project:\n\n## Project Overview\n- Total files: "
    ++ toString ps.totalFiles
    ++ "\n- Languages: " ++ joinComma ps.languages
    ++ "\n- Total lines of code: " ++ toString ps.totalLines
    ++ "\n"
    ++ (if ps.mainFiles.length > 0 then "- Main files: " ++ joinComma ps.mainFiles else "")
    ++ "\n\n"

/-- The per-chunk rendering of the "Most Relevant Code Sections" block,
with the source's `forEach((chunk, index) => ...)` index threaded through.
The `chunk.similarity ?` test is JS truthiness: absent or zero hides it. -/
def chunkSection (relevantFiles : List RelevantFile) : Nat → List RelevantChunk → String
  | _, [] => ""
  | i, c :: cs =>
    "### " ++ toString (i + 1) ++ ". " ++ c.fileName ++ " (" ++ c.type ++ ", lines " ++ c.lines ++ ")"
      ++ (match c.similarity with
          | some s => if s = 0 then "" else " - Similarity: " ++ toString s
          | none => "")
      ++ "\n```"
      ++ (match relevantFiles.find? fun f => f.name == c.fileName with
          | some f => if f.language = "" then "text" else f.language
          | none => "text")
      ++ "\n" ++ c.content ++ "\n```\n\n"
      ++ chunkSection relevantFiles (i + 1) cs

/-- The per-file rendering of the "Project Files" fallback block. -/
def fileSection : Nat → List RelevantFile → String
  | _, [] => ""
  | i, f :: fs =>
    "### " ++ toString (i + 1) ++ ". " ++ f.name ++ " (" ++ f.language ++ ")\n```"
      ++ f.language ++ "\n" ++ f.content ++ "\n```\n\n"
      ++ fileSection (i + 1) fs

/-- The trailing "User Question" block of the prompt template. -/
def questionSection (query : String) : String :=
  "## User Question\n" ++ query
    ++ "\n\nPlease provide a helpful response based on the code context above. Reference specific files, functions, or code sections when relevant."

/-- `ContextService.buildPromptWithContext`: raw query when the context has no
files; otherwise overview, then up to 5 ranked chunks if any, otherwise up to 3
raw file previews, then the user question. -/
def buildPromptWithContext (query : String) (context : CodeContext) : String :=
  if context.projectSummary.totalFiles = 0 then query
  else
    let base := promptHeader context.projectSummary
    let withChunks := base
      ++ (if context.relevantChunks.length > 0 then
            "## Most Relevant Code Sections\n"
              ++ chunkSection context.relevantFiles 0 (context.relevantChunks.take 5)
          else "")
    let withFiles := withChunks
      ++ (if context.relevantChunks.length = 0 ∧ context.relevantFiles.length > 0 then
            "## Project Files\n" ++ fileSection 0 (context.relevantFiles.take 3)
          else "")
    withFiles ++ questionSection query

/-! ## EmbeddingService: similarity search -/

/-- `EmbeddingResult` (part_001 lines 235–239). -/
structure EmbeddingResult where
  chunkId : String
  embedding : List ℚ
  content : String
deriving DecidableEq

/-- File header carried in a similarity result. -/
structure SimFile where
  id : String
  name : String
  language : String
deriving DecidableEq

/-- Chunk payload carried in a similarity result. -/
structure SimChunk where
  id : String
  content : String
  startLine : Nat
  endLine : Nat
  type : String
deriving DecidableEq

/-- One element of the `similarities` array of `findSimilarChunks`. -/
structure SimilarityEntry where
  file : SimFile
  chunk : SimChunk
  similarity : ℚ
deriving DecidableEq

/-- The inner chunk loop of `findSimilarChunks` (part_001 lines 358–382): a
chunk is scored only if it carries an embedding of positive length. -/
def chunkEntries (sqrt : ℚ → ℚ) (queryEmbedding : List ℚ) (f : FileRec) :
    List SimilarityEntry :=
  f.chunks.filterMap fun c =>
    match c.embedding with
    | some v =>
      if v.length > 0 then
        some { file := { id := f.id, name := f.originalName, language := f.language }
               chunk := { id := c.id, content := c.content, startLine := c.startLine, endLine := c.endLine, type := c.type }
               similarity := cosineSimilarity sqrt queryEmbedding v }
      else none
    | none => none

/-- All scored candidates, in encounter order (file order, then chunk order
within each file). -/
def candidateEntries (sqrt : ℚ → ℚ) (queryEmbedding : List ℚ) (files : List FileRec) :
    List SimilarityEntry :=
  (files.map (chunkEntries sqrt queryEmbedding)).flatten

/-- The JS comparator `(a, b) => b.similarity - a.similarity`: `a` sorts no
later than `b` exactly when `b.similarity ≤ a.similarity`. -/
def simDescLe (a b : SimilarityEntry) : Bool :=
  decide (b.similarity ≤ a.similarity)

/-- `EmbeddingService.findSimilarChunks` (part_001 lines 335–400): score every
embedded chunk of the session's files, sort stably by descending similarity
(JS `Array.prototype.sort` is stable), return the top `limit` entries. -/
def findSimilarChunks (sqrt : ℚ → ℚ) (queryEmbedding : List ℚ) (files : List FileRec)
    (limit : Nat) : List SimilarityEntry :=
  ((candidateEntries sqrt queryEmbedding files).mergeSort simDescLe).take limit

/-! ## EmbeddingService: bulk embedding generation and persistence -/

/-- The per-chunk loop of `generateEmbeddingsForFile` (part_001 lines 288–299):
the provider is called on each chunk's content; a failure skips that chunk and
the loop continues with the remaining chunks. -/
def collectEmbeddings (provider : String → Except Unit (List ℚ)) :
    List CodeChunk → List EmbeddingResult
  | [] => []
  | c :: cs =>
    match provider c.content with
    | .ok e => { chunkId := c.id, embedding := e, content := c.content } :: collectEmbeddings provider cs
    | .error _ => collectEmbeddings provider cs

/-- One step of `storeEmbeddings` (part_001 lines 320–325): `findIndex`
locates the first chunk with the result's id and that chunk's embedding field
is overwritten; an id that matches no chunk leaves the list unchanged. -/
def setEmbeddingById (chunkId : String) (emb : List ℚ) : List CodeChunk → List CodeChunk
  | [] => []
  | c :: cs =>
    if c.id = chunkId then { c with embedding := some emb } :: cs
    else c :: setEmbeddingById chunkId emb cs

/-- `EmbeddingService.storeEmbeddings` on the chunk list: apply every
embedding result in order. -/
def storeEmbeddings (chunks : List CodeChunk) (results : List EmbeddingResult) : List CodeChunk :=
  results.foldl (fun acc r => setEmbeddingById r.chunkId r.embedding acc) chunks

/-- `storeEmbeddings` followed by `file.save()`: only the chunk list of the
file record is replaced. -/
def storeEmbeddingsFile (file : FileRec) (results : List EmbeddingResult) : FileRec :=
  { file with chunks := storeEmbeddings file.chunks results }

/-- `EmbeddingService.generateEmbeddingsForFile` (part_001 lines 270–310):
collect the per-chunk results (skipping failed fragments), persist them, and
return them together with the saved file record. -/
def generateEmbeddingsForFile (provider : String → Except Unit (List ℚ)) (file : FileRec) :
    List EmbeddingResult × FileRec :=
  let results := collectEmbeddings provider file.chunks
  (results, storeEmbeddingsFile file results)

/-- The `try`/`catch` around the per-file call in
`generateEmbeddingsForSession`: a failing file is left as it was. -/
def applyFileStep (step : FileRec → Except Unit FileRec) (f : FileRec) : FileRec :=
  match step f with
  | .ok f2 => f2
  | .error _ => f

/-- `ContextService.generateEmbeddingsForSession` (part_001 lines 209–228):
process every file of the session in order; a file whose processing fails is
skipped and the loop continues with the remaining files. -/
def generateEmbeddingsForSession (step : FileRec → Except Unit FileRec) :
    List FileRec → List FileRec
  | [] => []
  | f :: fs => applyFileStep step f :: generateEmbeddingsForSession step fs

/-- The non-embedding fields of a chunk. -/
def chunkShell (c : CodeChunk) : String × String × Nat × Nat × String :=
  (c.id, c.content, c.startLine, c.endLine, c.type)

/-! ## ContextService.buildContextForQuery (part_001 lines 28–143) -/

/-- `Math.round(x * 100) / 100`. -/
def roundTwo (q : ℚ) : ℚ :=
  (round (q * 100) : ℚ) / 100

/-- The inline truncation of file content (part_001 lines 114–116). -/
def truncateFileContent (s : String) : String :=
  if s.length > 2000 then strTake s 2000 ++ "...\n[Content truncated]" else s

/-- JS `new Set(...)` insertion-order deduplication. -/
def dedupFirstAux (seen : List String) : List String → List String
  | [] => []
  | x :: xs => if x ∈ seen then dedupFirstAux seen xs else x :: dedupFirstAux (x :: seen) xs

/-- `[...new Set(l)]`. -/
def dedupFirst (l : List String) : List String :=
  dedupFirstAux [] l

/-- The `mainFiles` heuristic (part_001 lines 130–134). -/
def mainFilesOf (files : List FileRec) : List String :=
  (files.filter fun f =>
    ["index", "main", "app"].any fun nm => jsIncludes (jsToLower f.originalName) nm).map
    fun f => f.originalName

/-- `projectSummary` (part_001 lines 126–135). -/
def buildProjectSummary (files : List FileRec) : ProjectSummary :=
  { totalFiles := files.length
    languages := dedupFirst (files.map fun f => f.language)
    totalLines := (files.map fun f => (splitNlStr f.content).length).sum
    mainFiles := mainFilesOf files }

/-- Rendering of one ranked match into `relevantChunks` (part_001 lines
119–125), with the similarity rounded to two decimals. -/
def toRelevantChunk (e : SimilarityEntry) : RelevantChunk :=
  { fileName := e.file.name
    content := e.chunk.content
    type := e.chunk.type
    lines := toString e.chunk.startLine ++ "-" ++ toString e.chunk.endLine
    similarity := some (roundTwo e.similarity) }

/-- `ContextService.buildContextForQuery`.  External effects are parameters:
`fetched` is the result of resolving the session's files (the pair is the
session query result and the unassigned-files fallback; `Except.error` is a
file-store failure) and `embedOutcome` is the result of embedding the query
and ranking (`findSimilarChunks` with limit 10); any error there is caught
(part_001 lines 102–104) and leaves the ranked-match list empty, as does a
missing API key.  The whole body sits in a `try`/`catch` (lines 139–142) that
returns the empty context on any error, so the function itself is total. -/
def buildContextForQuery (fetched : Except Unit (List FileRec × List FileRec))
    (hasApiKey : Bool) (embedOutcome : Except Unit (List SimilarityEntry)) : CodeContext :=
  match fetched with
  | .error _ => getEmptyContext
  | .ok (sessionFiles, unassignedFiles) =>
    let files := if sessionFiles.isEmpty then unassignedFiles else sessionFiles
    if files.isEmpty then getEmptyContext
    else
      let relevantChunks :=
        if hasApiKey then
          match embedOutcome with
          | .ok cs => cs
          | .error _ => []
        else []
      { relevantFiles := (files.take 5).map fun f =>
          { name := f.originalName, language := f.language, content := truncateFileContent f.content, chunks := f.chunks.length }
        relevantChunks := relevantChunks.map toRelevantChunk
        projectSummary := buildProjectSummary files }

/-- `buildContextForQuery` as seen by its caller: because of the outer
`try`/`catch` (part_001 lines 139–142) the promise always resolves — also
when the file store failed. -/
def buildContextForQueryResult (fetched : Except Unit (List FileRec × List FileRec))
    (hasApiKey : Bool) (embedOutcome : Except Unit (List SimilarityEntry)) :
    Except Unit CodeContext :=
  .ok (buildContextForQuery fetched hasApiKey embedOutcome)

/-! ## Sample records, used to exercise the definitions at concrete inputs -/

/-- A chunk carrying an embedding vector. -/
def sampleChunkEmbedded : CodeChunk :=
  { id := "chunk_1", content := "x", startLine := 1, endLine := 1, type := "other", embedding := some [1] }

/-- A chunk with no embedding vector. -/
def sampleChunkBare : CodeChunk :=
  { id := "chunk_2", content := "y", startLine := 2, endLine := 2, type := "other", embedding := none }

/-- A file holding one embedded and one bare chunk. -/
def sampleFile : FileRec :=
  { id := "1", originalName := "a.ts", language := "typescript", content := "x",
    chunks := [sampleChunkEmbedded, sampleChunkBare] }

/-- The similarity entry that `sampleFile`'s embedded chunk yields for the
query vector `[1]` under the constant-one square root. -/
def sampleEntry : SimilarityEntry :=
  { file := { id := "1", name := "a.ts", language := "typescript" }
    chunk := { id := "chunk_1", content := "x", startLine := 1, endLine := 1, type := "other" }
    similarity := cosineSimilarity (fun _ => 1) [1] [1] }

/-! ### Claim C7 -/

/-- C7: for every query string, if the assembled context has zero files
(`projectSummary.totalFiles = 0`), then `buildPromptWithContext` returns
exactly the original query string, unchanged. -/
theorem c7_prompt_zero_files (query : String) (context : CodeContext)
    (h : context.projectSummary.totalFiles = 0) :
    buildPromptWithContext query context = query := by
  simp [buildPromptWithContext, h]

/-- C7 witness: the empty context has zero files, and the prompt for "hello"
over it is exactly "hello". -/
theorem c7_prompt_zero_files_witness :
    getEmptyContext.projectSummary.totalFiles = 0 ∧
      buildPromptWithContext "hello" getEmptyContext = "hello" :=
  ⟨rfl, c7_prompt_zero_files "hello" getEmptyContext rfl⟩

/-! ### Claim C3 -/

/-- C3: `cosineSimilarity` returns exactly 0 when the vectors have different
lengths or either vector has zero magnitude (for any square-root function with
`sqrt 0 = 0`), and it is total: the checked variant never reaches a division
by zero, for any input vectors and any square-root function. -/
theorem c3_cosine_similarity_safe (sqrt : ℚ → ℚ) (vecA vecB : List ℚ)
    (hsqrt : sqrt 0 = 0) :
    (vecA.length ≠ vecB.length → cosineSimilarity sqrt vecA vecB = 0) ∧
    (sumSquares vecA = 0 → cosineSimilarity sqrt vecA vecB = 0) ∧
    (sumSquares vecB = 0 → cosineSimilarity sqrt vecA vecB = 0) ∧
    cosineSimilarityChecked sqrt vecA vecB = some (cosineSimilarity sqrt vecA vecB) := by
  refine ⟨fun h => by simp [cosineSimilarity, h], ?_, ?_, ?_⟩
  · intro h
    by_cases hlen : vecA.length ≠ vecB.length
    · simp [cosineSimilarity, hlen]
    · simp [cosineSimilarity, hlen, h, hsqrt]
  · intro h
    by_cases hlen : vecA.length ≠ vecB.length
    · simp [cosineSimilarity, hlen]
    · simp [cosineSimilarity, hlen, h, hsqrt]
  · by_cases hlen : vecA.length ≠ vecB.length
    · simp [cosineSimilarity, cosineSimilarityChecked, hlen]
    · by_cases hz : sqrt (sumSquares vecA) = 0 ∨ sqrt (sumSquares vecB) = 0
      · simp [cosineSimilarity, cosineSimilarityChecked, hlen, hz]
      · push_neg at hz
        have hprod : sqrt (sumSquares vecA) * sqrt (sumSquares vecB) ≠ 0 :=
          mul_ne_zero hz.1 hz.2
        simp [cosineSimilarity, cosineSimilarityChecked, checkedDiv, hlen, hz.1, hz.2, hprod]

/-- C3 witness: with the constant-zero square root (which satisfies
`sqrt 0 = 0`) and the concrete mismatched-length vectors `[1]`, `[1, 0]`,
the theorem applies. -/
theorem c3_cosine_similarity_safe_witness :
    ((fun _ : ℚ => (0 : ℚ)) 0 = 0) ∧
      (([(1 : ℚ)].length ≠ [(1 : ℚ), 0].length →
          cosineSimilarity (fun _ => 0) [1] [1, 0] = 0) ∧
        (sumSquares [(1 : ℚ)] = 0 → cosineSimilarity (fun _ => 0) [1] [1, 0] = 0) ∧
        (sumSquares [(1 : ℚ), 0] = 0 → cosineSimilarity (fun _ => 0) [1] [1, 0] = 0) ∧
        cosineSimilarityChecked (fun _ => 0) [1] [1, 0] =
          some (cosineSimilarity (fun _ => 0) [1] [1, 0])) :=
  ⟨rfl, c3_cosine_similarity_safe (fun _ => 0) [1] [1, 0] rfl⟩

/-! ## Lemmas about the chunking loop -/

theorem splitNl_ne_nil (cs : List Char) : splitNl cs ≠ [] := by
  induction cs with
  | nil => simp [splitNl]
  | cons c cs ih =>
    simp only [splitNl]
    by_cases h : c = '\n'
    · simp [h]
    · simp only [if_neg h]
      cases hr : splitNl cs with
      | nil => simp
      | cons l ls => simp

theorem splitNlStr_ne_nil (s : String) : splitNlStr s ≠ [] := by
  simpa [splitNlStr] using splitNl_ne_nil s.data

theorem splitNlStr_length_pos (s : String) : 1 ≤ (splitNlStr s).length :=
  List.length_pos.mpr (splitNlStr_ne_nil s)

theorem splitAtBoundary_none_eq (matcher : String → Option String) :
    ∀ (ls pre : List String), splitAtBoundary matcher ls = (pre, none) → pre = ls := by
  intro ls
  induction ls with
  | nil =>
    intro pre h
    simp [splitAtBoundary] at h
    exact h
  | cons l0 ls ih =>
    intro pre h
    cases hm : matcher (jsTrim l0) with
    | some ty0 => simp [splitAtBoundary, hm] at h
    | none =>
      rcases hr : splitAtBoundary matcher ls with ⟨rp, ro⟩
      simp [splitAtBoundary, hm, hr] at h
      obtain ⟨hpre, hro⟩ := h
      have := ih rp (by rw [hr, hro])
      rw [← hpre, this]

theorem splitAtBoundary_some_eq (matcher : String → Option String) :
    ∀ (ls pre : List String) (l ty : String) (rest : List String),
      splitAtBoundary matcher ls = (pre, some (l, ty, rest)) → ls = pre ++ l :: rest := by
  intro ls
  induction ls with
  | nil => intro pre l ty rest h; simp [splitAtBoundary] at h
  | cons l0 ls ih =>
    intro pre l ty rest h
    cases hm : matcher (jsTrim l0) with
    | some ty0 =>
      simp [splitAtBoundary, hm] at h
      obtain ⟨hpre, hl, hty, hrest⟩ := h
      simp [hpre, hl, hrest]
    | none =>
      rcases hr : splitAtBoundary matcher ls with ⟨rp, ro⟩
      simp [splitAtBoundary, hm, hr] at h
      obtain ⟨hpre, hro⟩ := h
      have := ih rp l ty rest (by rw [hr, hro])
      rw [← hpre, this]
      simp

theorem parseLines_none_terminal (matcher : String → Option String) :
    ∀ (ls : List String) (n k : Nat) (pre : List String),
      splitAtBoundary matcher ls = (pre, none) →
      parseLines matcher ls n none k = [] := by
  intro ls
  induction ls with
  | nil => intro n k pre _; simp [parseLines]
  | cons l0 ls ih =>
    intro n k pre h
    cases hm : matcher (jsTrim l0) with
    | some ty0 => simp [splitAtBoundary, hm] at h
    | none =>
      rcases hr : splitAtBoundary matcher ls with ⟨rp, ro⟩
      simp [splitAtBoundary, hm, hr] at h
      obtain ⟨hpre, hro⟩ := h
      simp only [parseLines, hm]
      exact ih (n + 1) k rp (by rw [hr, hro])

theorem parseLines_none_step (matcher : String → Option String) :
    ∀ (ls : List String) (n k : Nat) (pre : List String) (l ty : String) (rest : List String),
      splitAtBoundary matcher ls = (pre, some (l, ty, rest)) →
      parseLines matcher ls n none k =
        parseLines matcher rest (n + pre.length + 1)
          (some (openedChunk k ty (n + pre.length) (jsTrim l))) (k + 1) := by
  intro ls
  induction ls with
  | nil => intro n k pre l ty rest h; simp [splitAtBoundary] at h
  | cons l0 ls ih =>
    intro n k pre l ty rest h
    cases hm : matcher (jsTrim l0) with
    | some ty0 =>
      simp [splitAtBoundary, hm] at h
      obtain ⟨hpre, hl, hty, hrest⟩ := h
      subst hpre; subst hl; subst hty; subst hrest
      simp [parseLines, hm, addLine, openedChunk]
    | none =>
      rcases hr : splitAtBoundary matcher ls with ⟨rp, ro⟩
      simp [splitAtBoundary, hm, hr] at h
      obtain ⟨hpre, hro⟩ := h
      have step := ih (n + 1) k rp l ty rest (by rw [hr, hro])
      simp only [parseLines, hm]
      rw [step, ← hpre]
      have e1 : n + 1 + rp.length = n + (rp.length + 1) := by omega
      simp only [List.length_cons, e1]

theorem parseLines_some_terminal (matcher : String → Option String) :
    ∀ (ls : List String) (m k : Nat) (c : CodeChunk) (pre : List String),
      c.endLine = m →
      splitAtBoundary matcher ls = (pre, none) →
      parseLines matcher ls (m + 1) (some c) k =
        [{ c with
            content := extendContent c.content (pre.map jsTrim)
            endLine := m + pre.length }] := by
  intro ls
  induction ls with
  | nil =>
    intro m k c pre hc h
    simp [splitAtBoundary] at h
    subst h
    obtain ⟨ci, cc, cst, cen, cty, cem⟩ := c
    simp at hc
    subst hc
    simp [parseLines, extendContent]
  | cons l0 ls ih =>
    intro m k c pre hc h
    cases hm : matcher (jsTrim l0) with
    | some ty0 => simp [splitAtBoundary, hm] at h
    | none =>
      rcases hr : splitAtBoundary matcher ls with ⟨rp, ro⟩
      simp [splitAtBoundary, hm, hr] at h
      obtain ⟨hpre, hro⟩ := h
      have step := ih (m + 1) k (addLine c (jsTrim l0) (m + 1)) rp (by simp [addLine])
        (by rw [hr, hro])
      simp only [parseLines, hm]
      rw [step, ← hpre]
      have e1 : m + 1 + rp.length = m + (rp.length + 1) := by omega
      obtain ⟨ci, cc, cst, cen, cty, cem⟩ := c
      simp only [List.length_cons, e1, addLine, extendContent, List.map_cons, List.foldl_cons]

theorem parseLines_some_step (matcher : String → Option String) :
    ∀ (ls : List String) (m k : Nat) (c : CodeChunk) (pre : List String) (l ty : String)
      (rest : List String),
      c.endLine = m →
      splitAtBoundary matcher ls = (pre, some (l, ty, rest)) →
      parseLines matcher ls (m + 1) (some c) k =
        { c with content := extendContent c.content (pre.map jsTrim), endLine := m + pre.length }
          :: parseLines matcher rest (m + pre.length + 2)
               (some (openedChunk k ty (m + pre.length + 1) (jsTrim l))) (k + 1) := by
  intro ls
  induction ls with
  | nil => intro m k c pre l ty rest hc h; simp [splitAtBoundary] at h
  | cons l0 ls ih =>
    intro m k c pre l ty rest hc h
    cases hm : matcher (jsTrim l0) with
    | some ty0 =>
      simp [splitAtBoundary, hm] at h
      obtain ⟨hpre, hl, hty, hrest⟩ := h
      subst hpre; subst hl; subst hty; subst hrest
      obtain ⟨ci, cc, cst, cen, cty, cem⟩ := c
      simp at hc
      subst hc
      simp [parseLines, hm, addLine, openedChunk, extendContent]
    | none =>
      rcases hr : splitAtBoundary matcher ls with ⟨rp, ro⟩
      simp [splitAtBoundary, hm, hr] at h
      obtain ⟨hpre, hro⟩ := h
      have step := ih (m + 1) k (addLine c (jsTrim l0) (m + 1)) rp l ty rest (by simp [addLine])
        (by rw [hr, hro])
      simp only [parseLines, hm]
      rw [step, ← hpre]
      have e1 : m + 1 + rp.length = m + (rp.length + 1) := by omega
      obtain ⟨ci, cc, cst, cen, cty, cem⟩ := c
      simp only [List.length_cons, e1, addLine, extendContent, List.map_cons, List.foldl_cons]

theorem extendContent_append (x : String) (ts us : List String) :
    extendContent x (ts ++ us) = extendContent (extendContent x ts) us := by
  simp [extendContent, List.foldl_append]

theorem chunkTextSpec_single (orig : List String) (m' : Nat) (l : String) (rest : List String)
    (h : orig.drop (m' - 1) = l :: rest) :
    chunkTextSpec orig m' m' =
      (if jsTrim l = "" then jsTrim l else jsTrim l ++ "\n" ++ jsTrim l) := by
  have h1 : m' + 1 - m' = 1 := by omega
  simp [chunkTextSpec, h, h1, extendContent]

theorem chunkTextSpec_extend (orig : List String) (s m j : Nat)
    (h1 : 1 ≤ s) (h2 : s ≤ m) (h3 : m ≤ orig.length) :
    chunkTextSpec orig s (m + j) =
      extendContent (chunkTextSpec orig s m) (((orig.drop m).take j).map jsTrim) := by
  have hsum : m + j + 1 - s = (m + 1 - s) + j := by omega
  have hdd : (orig.drop (s - 1)).drop (m + 1 - s) = orig.drop m := by
    rw [List.drop_drop]
    congr 1
    omega
  have hsplit : (orig.drop (s - 1)).take (m + j + 1 - s) =
      (orig.drop (s - 1)).take (m + 1 - s) ++ (orig.drop m).take j := by
    rw [hsum, List.take_add, hdd]
  have hlen : 0 < ((orig.drop (s - 1)).take (m + 1 - s)).length := by
    simp [List.length_take, List.length_drop]
    omega
  cases hseg : (orig.drop (s - 1)).take (m + 1 - s) with
  | nil => rw [hseg] at hlen; simp at hlen
  | cons t ts =>
    rw [hseg] at hsplit
    simp only [chunkTextSpec, hsplit, hseg, List.map_append, List.map_cons, List.cons_append,
      extendContent_append]

theorem isPartitionB_cons (c : CodeChunk) (cs : List CodeChunk) (s e : Nat)
    (h1 : c.startLine = s) (h2 : s ≤ c.endLine) (h3 : isPartitionB cs (c.endLine + 1) e = true) :
    isPartitionB (c :: cs) s e = true := by
  simp [isPartitionB, h1, h2, h3]

theorem parseLines_master (matcher : String → Option String) :
    ∀ (N : Nat) (ls : List String) (m k : Nat) (c : CodeChunk) (orig : List String),
      ls.length ≤ N →
      c.endLine = m → 1 ≤ c.startLine → c.startLine ≤ m → m ≤ orig.length →
      ls = orig.drop m →
      c.content = chunkTextSpec orig c.startLine m →
      isPartitionB (parseLines matcher ls (m + 1) (some c) k) c.startLine (m + ls.length) = true
      ∧ ∀ d ∈ parseLines matcher ls (m + 1) (some c) k,
          d.content = chunkTextSpec orig d.startLine d.endLine := by
  intro N
  induction N with
  | zero =>
    intro ls m k c orig hN hc hs1 hsm hmo hdrop hcont
    have hnil : ls = [] := List.length_eq_zero.mp (Nat.le_zero.mp hN)
    subst hnil
    constructor
    · simp [parseLines, isPartitionB, hc, hsm]
    · intro d hd
      simp [parseLines] at hd
      subst hd
      rw [hcont, hc]
  | succ N ih =>
    intro ls m k c orig hN hc hs1 hsm hmo hdrop hcont
    rcases hsb : splitAtBoundary matcher ls with ⟨pre, ro⟩
    cases ro with
    | none =>
      have hpre : pre = ls := splitAtBoundary_none_eq matcher ls pre hsb
      subst hpre
      rw [parseLines_some_terminal matcher pre m k c pre hc hsb]
      have hpre_take : (orig.drop m).take pre.length = pre := by
        rw [← hdrop, List.take_length]
      have hext := chunkTextSpec_extend orig c.startLine m pre.length hs1 hsm hmo
      rw [hpre_take] at hext
      constructor
      · simp [isPartitionB]
        omega
      · intro d hd
        simp only [List.mem_singleton] at hd
        subst hd
        simp only
        rw [hcont]
        exact hext.symm
    | some triple =>
      obtain ⟨l, ty, rest⟩ := triple
      have hls : ls = pre ++ l :: rest := splitAtBoundary_some_eq matcher ls pre l ty rest hsb
      rw [parseLines_some_step matcher ls m k c pre l ty rest hc hsb]
      have hlen : ls.length = pre.length + 1 + rest.length := by
        rw [hls]
        simp [List.length_append]
        omega
      have hpredrop : orig.drop (m + pre.length) = l :: rest := by
        have hx : orig.drop (m + pre.length) = (orig.drop m).drop pre.length :=
          (List.drop_drop pre.length m orig).symm
        rw [hx, ← hdrop, hls]
        exact List.drop_left pre (l :: rest)
      have hrestdrop : rest = orig.drop (m + pre.length + 1) := by
        have hx : orig.drop (m + pre.length + 1) = (orig.drop (m + pre.length)).drop 1 :=
          (List.drop_drop 1 (m + pre.length) orig).symm
        rw [hx, hpredrop]
        simp
      have horig : m + pre.length + 1 ≤ orig.length := by
        have hy := congrArg List.length hpredrop
        simp [List.length_drop] at hy
        omega
      have hcopen :
          (openedChunk k ty (m + pre.length + 1) (jsTrim l)).content =
            chunkTextSpec orig (m + pre.length + 1) (m + pre.length + 1) := by
        have hz : m + pre.length + 1 - 1 = m + pre.length := by omega
        rw [chunkTextSpec_single orig (m + pre.length + 1) l rest (by rw [hz]; exact hpredrop)]
        rfl
      have hNrest : rest.length ≤ N := by omega
      have hmain := ih rest (m + pre.length + 1) (k + 1)
        (openedChunk k ty (m + pre.length + 1) (jsTrim l)) orig hNrest rfl
        (by simp [openedChunk]) (by simp [openedChunk]) horig hrestdrop
        (by rw [hcopen]; rfl)
      obtain ⟨hpart, hcont2⟩ := hmain
      have hpre_take : (orig.drop m).take pre.length = pre := by
        rw [← hdrop, hls]
        exact List.take_left pre (l :: rest)
      have hext := chunkTextSpec_extend orig c.startLine m pre.length hs1 hsm hmo
      rw [hpre_take] at hext
      constructor
      · apply isPartitionB_cons
        · rfl
        · show c.startLine ≤ m + pre.length
          omega
        · show isPartitionB _ (m + pre.length + 1) (m + ls.length) = true
          have e2 : m + ls.length = m + pre.length + 1 + rest.length := by omega
          rw [e2]
          simpa [openedChunk] using hpart
      · intro d hd
        rcases List.mem_cons.mp hd with rfl | hd2
        · simp only
          rw [hcont]
          exact hext.symm
        · exact hcont2 d hd2

theorem parseCodeChunks_no_boundary (matcher : String → Option String) (content : String)
    (pre : List String)
    (hsb : splitAtBoundary matcher (splitNlStr content) = (pre, none)) :
    parseCodeChunks matcher content =
      [{ id := "chunk_1", content := content, startLine := 1,
         endLine := (splitNlStr content).length, type := "other", embedding := none }] := by
  have hempty := parseLines_none_terminal matcher (splitNlStr content) 1 1 pre hsb
  simp [parseCodeChunks, hempty]

theorem parseCodeChunks_boundary (matcher : String → Option String) (content : String)
    (pre : List String) (l ty : String) (rest : List String)
    (hsb : splitAtBoundary matcher (splitNlStr content) = (pre, some (l, ty, rest))) :
    parseCodeChunks matcher content ≠ [] ∧
    isPartitionB (parseCodeChunks matcher content) (pre.length + 1)
      (splitNlStr content).length = true ∧
    ∀ d ∈ parseCodeChunks matcher content,
      d.content = chunkTextSpec (splitNlStr content) d.startLine d.endLine := by
  have hstep := parseLines_none_step matcher (splitNlStr content) 1 1 pre l ty rest hsb
  have e0 : 1 + pre.length = pre.length + 1 := by omega
  rw [e0] at hstep
  have hls : splitNlStr content = pre ++ l :: rest :=
    splitAtBoundary_some_eq matcher (splitNlStr content) pre l ty rest hsb
  have hlen : (splitNlStr content).length = pre.length + 1 + rest.length := by
    rw [hls]
    simp [List.length_append]
    omega
  have hpredrop : (splitNlStr content).drop pre.length = l :: rest := by
    rw [hls]
    exact List.drop_left pre (l :: rest)
  have hrestdrop : rest = (splitNlStr content).drop (pre.length + 1) := by
    have hx : (splitNlStr content).drop (pre.length + 1) =
        ((splitNlStr content).drop pre.length).drop 1 :=
      (List.drop_drop 1 pre.length (splitNlStr content)).symm
    rw [hx, hpredrop]
    simp
  have hmo : pre.length + 1 ≤ (splitNlStr content).length := by omega
  have hcopen :
      (openedChunk 1 ty (pre.length + 1) (jsTrim l)).content =
        chunkTextSpec (splitNlStr content) (pre.length + 1) (pre.length + 1) := by
    have hz : pre.length + 1 - 1 = pre.length := by omega
    rw [chunkTextSpec_single (splitNlStr content) (pre.length + 1) l rest
      (by rw [hz]; exact hpredrop)]
    rfl
  have hmaster := parseLines_master matcher rest.length rest (pre.length + 1) 2
    (openedChunk 1 ty (pre.length + 1) (jsTrim l)) (splitNlStr content) le_rfl rfl
    (by simp [openedChunk]) (by simp [openedChunk]) hmo hrestdrop
    (by rw [hcopen]; rfl)
  obtain ⟨hpart, hcont⟩ := hmaster
  rw [← hstep] at hpart hcont
  have hne : parseLines matcher (splitNlStr content) 1 none 1 ≠ [] := by
    intro hcontra
    rw [hcontra] at hpart
    simp [isPartitionB, openedChunk] at hpart
    omega
  have hpcc : parseCodeChunks matcher content = parseLines matcher (splitNlStr content) 1 none 1 := by
    simp [parseCodeChunks, List.isEmpty_iff, hne]
  rw [hpcc]
  refine ⟨hne, ?_, ?_⟩
  · have e2 : (splitNlStr content).length = pre.length + 1 + rest.length := hlen
    rw [e2]
    simpa [openedChunk] using hpart
  · exact hcont

/-! ### Claim C1 -/

/-- C1 counterexample: for the two-line file "a\nfunction f" under the generic
patterns, the chunker yields a single fragment spanning lines 2–2 only — there
is no leading fragment covering line 1, and the output is not a partition of
`[1, lineCount]` as the claim states. -/
theorem c1_counterexample :
    parseCodeChunks defaultMatcher "a\nfunction f" =
      [{ id := "chunk_1", content := "function f\nfunction f", startLine := 2, endLine := 2,
         type := "function", embedding := none }] ∧
    isPartitionB (parseCodeChunks defaultMatcher "a\nfunction f") 1
      (splitNlStr "a\nfunction f").length = false := by
  constructor
  · decide
  · decide

/-- C1 (amended): for every matcher and file content the chunker output is
non-empty and, ordered by start line, forms a non-decreasing, non-overlapping
partition of `[s, lineCount]`, where `s` is the line of the first structural
boundary (`s = 1` when no line matches, in which case a single fallback
fragment spans the whole file); lines before the first boundary belong to no
fragment. -/
theorem c1_chunker_partition (matcher : String → Option String) (content : String) :
    parseCodeChunks matcher content ≠ [] ∧
    isPartitionB (parseCodeChunks matcher content)
      ((firstBoundaryLine matcher (splitNlStr content)).getD 1)
      (splitNlStr content).length = true := by
  rcases hsb : splitAtBoundary matcher (splitNlStr content) with ⟨pre, ro⟩
  cases ro with
  | none =>
    have hfb : firstBoundaryLine matcher (splitNlStr content) = none := by
      simp [firstBoundaryLine, hsb]
    have hpos := splitNlStr_length_pos content
    rw [parseCodeChunks_no_boundary matcher content pre hsb, hfb]
    constructor
    · simp
    · simp [isPartitionB]
      omega
  | some triple =>
    obtain ⟨l, ty, rest⟩ := triple
    have hfb : firstBoundaryLine matcher (splitNlStr content) = some (pre.length + 1) := by
      simp [firstBoundaryLine, hsb]
    obtain ⟨hne, hpart, _⟩ := parseCodeChunks_boundary matcher content pre l ty rest hsb
    rw [hfb]
    exact ⟨hne, hpart⟩

/-! ### Claim C9 -/

/-- C9 counterexample: for the one-line file "  function f" the unique
fragment's text is "function f\nfunction f" — the trimmed line duplicated —
which is not the literal text span "  function f" of lines 1–1. -/
theorem c9_counterexample :
    parseCodeChunks defaultMatcher "  function f" =
      [{ id := "chunk_1", content := "function f\nfunction f", startLine := 1, endLine := 1,
         type := "function", embedding := none }] ∧
    ("function f\nfunction f" : String) ≠ literalSpan (splitNlStr "  function f") 1 1 := by
  constructor
  · decide
  · decide

/-- C9 (amended): when no line matches a structural pattern, the single
fallback fragment carries the file content verbatim; otherwise every fragment's
text is determined by its line span `[startLine, endLine]` as the trimmed
source lines of the span joined by newlines with the opening line duplicated
(`chunkTextSpec`) — not the literal whitespace-preserving span. -/
theorem c9_chunk_text (matcher : String → Option String) (content : String) :
    ((splitAtBoundary matcher (splitNlStr content)).2 = none →
      parseCodeChunks matcher content =
        [{ id := "chunk_1", content := content, startLine := 1,
           endLine := (splitNlStr content).length, type := "other", embedding := none }]) ∧
    ((splitAtBoundary matcher (splitNlStr content)).2 ≠ none →
      ∀ d ∈ parseCodeChunks matcher content,
        d.content = chunkTextSpec (splitNlStr content) d.startLine d.endLine) := by
  rcases hsb : splitAtBoundary matcher (splitNlStr content) with ⟨pre, ro⟩
  cases ro with
  | none =>
    constructor
    · intro _
      exact parseCodeChunks_no_boundary matcher content pre hsb
    · intro hcontra
      simp at hcontra
  | some triple =>
    obtain ⟨l, ty, rest⟩ := triple
    constructor
    · intro hcontra
      simp at hcontra
    · intro _
      exact (parseCodeChunks_boundary matcher content pre l ty rest hsb).2.2

/-- C9 witness: the amended claim applied at the concrete file "x\nfunction f",
whose single fragment spans lines 2–2 and whose text is the trimmed matched
line duplicated, as `chunkTextSpec` prescribes. -/
theorem c9_chunk_text_witness :
    (splitAtBoundary defaultMatcher (splitNlStr "x\nfunction f")).2 ≠ none ∧
    (⟨"chunk_1", "function f\nfunction f", 2, 2, "function", none⟩ : CodeChunk) ∈
      parseCodeChunks defaultMatcher "x\nfunction f" ∧
    ("function f\nfunction f" : String) =
      chunkTextSpec (splitNlStr "x\nfunction f") 2 2 :=
  ⟨by decide, by decide,
    (c9_chunk_text defaultMatcher "x\nfunction f").2 (by decide)
      ⟨"chunk_1", "function f\nfunction f", 2, 2, "function", none⟩ (by decide)⟩

/-! ### Claim C2 -/

theorem simDescLe_trans (a b c : SimilarityEntry) (h1 : simDescLe a b = true)
    (h2 : simDescLe b c = true) : simDescLe a c = true := by
  simp [simDescLe] at h1 h2 ⊢
  exact le_trans h2 h1

theorem simDescLe_total (a b : SimilarityEntry) : (simDescLe a b || simDescLe b a) = true := by
  simp [simDescLe]
  exact le_total b.similarity a.similarity

theorem chunkEntries_sound (sqrt : ℚ → ℚ) (q : List ℚ) (f : FileRec) :
    ∀ e ∈ chunkEntries sqrt q f, ∃ c ∈ f.chunks, ∃ v, c.embedding = some v ∧ 0 < v.length ∧
      e = { file := { id := f.id, name := f.originalName, language := f.language }
            chunk := { id := c.id, content := c.content, startLine := c.startLine, endLine := c.endLine, type := c.type }
            similarity := cosineSimilarity sqrt q v } := by
  intro e he
  simp only [chunkEntries, List.mem_filterMap] at he
  obtain ⟨c, hc, hg⟩ := he
  cases hv : c.embedding with
  | none => rw [hv] at hg; simp at hg
  | some v =>
    rw [hv] at hg
    by_cases hl : v.length > 0
    · simp only [hl, if_true, Option.some.injEq] at hg
      exact ⟨c, hc, v, hv, hl, hg.symm⟩
    · simp [hl] at hg

/-- C2: the output of `findSimilarChunks` (1) contains only entries built from
chunks that carry a non-empty embedding vector — chunks without one are absent,
not scored 0; (2) is sorted in descending order of similarity; (3) has length
exactly `min limit (number of embedded candidates)`; (4) returns all embedded
candidates when fewer than `limit` exist; (5) ties preserve the encounter
order (first-seen file, then first-seen fragment): any two-element
equal-similarity subsequence of the candidate list survives, in order, into
the stable ranking, of which the output is the `limit`-prefix (6). -/
theorem c2_find_similar_ranking (sqrt : ℚ → ℚ) (q : List ℚ) (files : List FileRec)
    (limit : Nat) :
    (∀ e ∈ findSimilarChunks sqrt q files limit,
       ∃ f ∈ files, ∃ c ∈ f.chunks, ∃ v, c.embedding = some v ∧ 0 < v.length ∧
         e = { file := { id := f.id, name := f.originalName, language := f.language }
               chunk := { id := c.id, content := c.content, startLine := c.startLine, endLine := c.endLine, type := c.type }
               similarity := cosineSimilarity sqrt q v }) ∧
    (findSimilarChunks sqrt q files limit).Pairwise
      (fun a b => b.similarity ≤ a.similarity) ∧
    (findSimilarChunks sqrt q files limit).length =
      min limit (candidateEntries sqrt q files).length ∧
    ((candidateEntries sqrt q files).length ≤ limit →
      ∀ e ∈ candidateEntries sqrt q files, e ∈ findSimilarChunks sqrt q files limit) ∧
    (∀ a b : SimilarityEntry, a.similarity = b.similarity →
      List.Sublist [a, b] (candidateEntries sqrt q files) →
      List.Sublist [a, b] ((candidateEntries sqrt q files).mergeSort simDescLe)) ∧
    List.Sublist (findSimilarChunks sqrt q files limit)
      ((candidateEntries sqrt q files).mergeSort simDescLe) := by
  have hmem_cands : ∀ e ∈ findSimilarChunks sqrt q files limit,
      e ∈ candidateEntries sqrt q files := by
    intro e he
    have h1 : e ∈ (candidateEntries sqrt q files).mergeSort simDescLe :=
      (List.take_sublist _ _).mem he
    exact (List.mergeSort_perm (candidateEntries sqrt q files) simDescLe).mem_iff.mp h1
  refine ⟨?_, ?_, ?_, ?_, ?_, ?_⟩
  · intro e he
    have h2 := hmem_cands e he
    simp only [candidateEntries, List.mem_flatten, List.mem_map] at h2
    obtain ⟨lf, ⟨f, hf, hlf⟩, helf⟩ := h2
    subst hlf
    obtain ⟨c, hc, v, hv, hvlen, hee⟩ := chunkEntries_sound sqrt q f e helf
    exact ⟨f, hf, c, hc, v, hv, hvlen, hee⟩
  · have hsorted := List.sorted_mergeSort simDescLe_trans simDescLe_total
      (candidateEntries sqrt q files)
    have htake := hsorted.sublist (List.take_sublist limit _)
    exact htake.imp fun h => by simpa [simDescLe] using h
  · simp [findSimilarChunks, List.length_take, List.length_mergeSort]
  · intro hle e he
    have hall : ((candidateEntries sqrt q files).mergeSort simDescLe).take limit =
        (candidateEntries sqrt q files).mergeSort simDescLe :=
      List.take_of_length_le (by simpa [List.length_mergeSort] using hle)
    unfold findSimilarChunks
    rw [hall]
    exact (List.mergeSort_perm (candidateEntries sqrt q files) simDescLe).symm.mem_iff.mp he
  · intro a b hsim hsub
    refine List.sublist_mergeSort simDescLe_trans simDescLe_total ?_ hsub
    simp [List.pairwise_cons, simDescLe, hsim]
  · exact List.take_sublist limit _

/-- C2 witness: `sampleFile` has exactly one embedded candidate (the bare
chunk is absent from the candidate set), fewer than the limit 5, and that
candidate appears in the ranking output. -/
theorem c2_find_similar_ranking_witness :
    (candidateEntries (fun _ => 1) [1] [sampleFile]).length ≤ 5 ∧
    sampleEntry ∈ findSimilarChunks (fun _ => 1) [1] [sampleFile] 5 := by
  constructor
  · decide
  · exact (c2_find_similar_ranking (fun _ => 1) [1] [sampleFile] 5).2.2.2.1 (by decide)
      sampleEntry (List.mem_singleton_self sampleEntry)

/-! ### Claim C10 -/

theorem setEmbeddingById_length (x : String) (emb : List ℚ) (l : List CodeChunk) :
    (setEmbeddingById x emb l).length = l.length := by
  induction l with
  | nil => rfl
  | cons c cs ih =>
    by_cases h : c.id = x
    · simp [setEmbeddingById, h]
    · simp [setEmbeddingById, h, ih]

theorem setEmbeddingById_shell (x : String) (emb : List ℚ) (l : List CodeChunk) (j : Nat) :
    ((setEmbeddingById x emb l)[j]?).map chunkShell = (l[j]?).map chunkShell := by
  induction l generalizing j with
  | nil => rfl
  | cons c cs ih =>
    by_cases h : c.id = x
    · cases j with
      | zero => simp [setEmbeddingById, h, chunkShell]
      | succ j => simp [setEmbeddingById, h]
    · cases j with
      | zero => simp [setEmbeddingById, h]
      | succ j => simp [setEmbeddingById, h, ih j]

theorem setEmbeddingById_untouched (x : String) (emb : List ℚ) (l : List CodeChunk) (j : Nat)
    (c : CodeChunk) (hj : l[j]? = some c) (hne : c.id ≠ x) :
    (setEmbeddingById x emb l)[j]? = some c := by
  induction l generalizing j with
  | nil => simp at hj
  | cons d ds ih =>
    by_cases h : d.id = x
    · cases j with
      | zero =>
        simp at hj
        subst hj
        exact absurd h hne
      | succ j =>
        simp only [setEmbeddingById, if_pos h, List.getElem?_cons_succ]
        simpa using hj
    · cases j with
      | zero =>
        simp at hj
        subst hj
        simp [setEmbeddingById, h]
      | succ j =>
        simp only [setEmbeddingById, if_neg h, List.getElem?_cons_succ]
        exact ih j (by simpa using hj)

theorem storeEmbeddings_length (chunks : List CodeChunk) (results : List EmbeddingResult) :
    (storeEmbeddings chunks results).length = chunks.length := by
  induction results generalizing chunks with
  | nil => rfl
  | cons r rs ih =>
    calc (storeEmbeddings chunks (r :: rs)).length
        = (storeEmbeddings (setEmbeddingById r.chunkId r.embedding chunks) rs).length := rfl
      _ = (setEmbeddingById r.chunkId r.embedding chunks).length := ih _
      _ = chunks.length := setEmbeddingById_length _ _ _

theorem storeEmbeddings_shell (chunks : List CodeChunk) (results : List EmbeddingResult)
    (j : Nat) :
    ((storeEmbeddings chunks results)[j]?).map chunkShell = (chunks[j]?).map chunkShell := by
  induction results generalizing chunks with
  | nil => rfl
  | cons r rs ih =>
    calc ((storeEmbeddings chunks (r :: rs))[j]?).map chunkShell
        = ((storeEmbeddings (setEmbeddingById r.chunkId r.embedding chunks) rs)[j]?).map chunkShell := rfl
      _ = (((setEmbeddingById r.chunkId r.embedding chunks)[j]?).map chunkShell) := ih _
      _ = ((chunks[j]?).map chunkShell) := setEmbeddingById_shell _ _ _ _

theorem storeEmbeddings_untouched (chunks : List CodeChunk) (results : List EmbeddingResult)
    (j : Nat) (c : CodeChunk) (hj : chunks[j]? = some c)
    (hnr : ∀ r ∈ results, r.chunkId ≠ c.id) :
    (storeEmbeddings chunks results)[j]? = some c := by
  induction results generalizing chunks with
  | nil => exact hj
  | cons r rs ih =>
    have h1 : (setEmbeddingById r.chunkId r.embedding chunks)[j]? = some c :=
      setEmbeddingById_untouched r.chunkId r.embedding chunks j c hj
        (fun hcid => hnr r (List.mem_cons_self r rs) hcid.symm)
    exact ih _ h1 fun r2 hr2 => hnr r2 (List.mem_cons_of_mem r hr2)

/-- C10: persisting embeddings modifies only the embedding fields of the
chunks whose ids occur among the results: the list length is preserved, every
chunk keeps its id, content, line range and kind at its position, a chunk
whose id matches no result is entirely unchanged (its previously stored
vector, if any, is retained), and all other fields of the file record are
untouched by the save. -/
theorem c10_store_embeddings_frame (chunks : List CodeChunk) (results : List EmbeddingResult) :
    (storeEmbeddings chunks results).length = chunks.length ∧
    (∀ j : Nat, ((storeEmbeddings chunks results)[j]?).map chunkShell = (chunks[j]?).map chunkShell) ∧
    (∀ j : Nat, ∀ c : CodeChunk, chunks[j]? = some c → (∀ r ∈ results, r.chunkId ≠ c.id) →
      (storeEmbeddings chunks results)[j]? = some c) ∧
    (∀ file : FileRec,
      (storeEmbeddingsFile file results).id = file.id ∧
      (storeEmbeddingsFile file results).originalName = file.originalName ∧
      (storeEmbeddingsFile file results).language = file.language ∧
      (storeEmbeddingsFile file results).content = file.content ∧
      (storeEmbeddingsFile file results).chunks = storeEmbeddings file.chunks results) :=
  ⟨storeEmbeddings_length chunks results,
   fun j => storeEmbeddings_shell chunks results j,
   fun j c hj hnr => storeEmbeddings_untouched chunks results j c hj hnr,
   fun _ => ⟨rfl, rfl, rfl, rfl, rfl⟩⟩

/-- C10 witness: storing a result whose id matches no chunk leaves the
previously embedded chunk — vector included — exactly as it was. -/
theorem c10_store_embeddings_frame_witness :
    ([sampleChunkEmbedded] : List CodeChunk)[0]? = some sampleChunkEmbedded ∧
    (∀ r ∈ [({ chunkId := "chunk_9", embedding := [2], content := "z" } : EmbeddingResult)],
      r.chunkId ≠ sampleChunkEmbedded.id) ∧
    (storeEmbeddings [sampleChunkEmbedded]
        [{ chunkId := "chunk_9", embedding := [2], content := "z" }])[0]? =
      some sampleChunkEmbedded :=
  ⟨rfl, by decide,
    (c10_store_embeddings_frame [sampleChunkEmbedded]
      [{ chunkId := "chunk_9", embedding := [2], content := "z" }]).2.2.1 0
      sampleChunkEmbedded rfl (by decide)⟩

/-! ### Claim C5 -/

theorem collectEmbeddings_mem (provider : String → Except Unit (List ℚ))
    (cs : List CodeChunk) (c : CodeChunk) (e : List ℚ)
    (hc : c ∈ cs) (he : provider c.content = .ok e) :
    ({ chunkId := c.id, embedding := e, content := c.content } : EmbeddingResult) ∈
      collectEmbeddings provider cs := by
  induction cs with
  | nil => simp at hc
  | cons d ds ih =>
    rcases List.mem_cons.mp hc with rfl | hc2
    · simp [collectEmbeddings, he]
    · cases hp : provider d.content with
      | ok e2 =>
        simp only [collectEmbeddings, hp]
        exact List.mem_cons_of_mem _ (ih hc2)
      | error u =>
        simp only [collectEmbeddings, hp]
        exact ih hc2

theorem collectEmbeddings_countP (provider : String → Except Unit (List ℚ))
    (cs : List CodeChunk) (x : String) :
    (collectEmbeddings provider cs).countP (fun r => r.chunkId == x) ≤
      cs.countP (fun d => d.id == x) := by
  induction cs with
  | nil => simp [collectEmbeddings]
  | cons d ds ih =>
    cases hp : provider d.content with
    | ok e =>
      simp only [collectEmbeddings, hp, List.countP_cons]
      omega
    | error u =>
      simp only [collectEmbeddings, hp, List.countP_cons]
      omega

theorem setEmbeddingById_ids (x : String) (emb : List ℚ) (l : List CodeChunk) :
    (setEmbeddingById x emb l).map (fun c => c.id) = l.map (fun c => c.id) := by
  induction l with
  | nil => rfl
  | cons c cs ih =>
    by_cases h : c.id = x
    · simp [setEmbeddingById, h]
    · simp [setEmbeddingById, h, ih]

theorem storeEmbeddings_ids (chunks : List CodeChunk) (results : List EmbeddingResult) :
    (storeEmbeddings chunks results).map (fun c => c.id) = chunks.map (fun c => c.id) := by
  induction results generalizing chunks with
  | nil => rfl
  | cons r rs ih =>
    calc (storeEmbeddings chunks (r :: rs)).map (fun c => c.id)
        = (storeEmbeddings (setEmbeddingById r.chunkId r.embedding chunks) rs).map (fun c => c.id) := rfl
      _ = (setEmbeddingById r.chunkId r.embedding chunks).map (fun c => c.id) := ih _
      _ = chunks.map (fun c => c.id) := setEmbeddingById_ids _ _ _

theorem setEmbeddingById_sets (x : String) (emb : List ℚ) (l : List CodeChunk)
    (hx : x ∈ l.map (fun c => c.id)) :
    ∃ d ∈ setEmbeddingById x emb l, d.id = x ∧ d.embedding = some emb := by
  induction l with
  | nil => simp at hx
  | cons c cs ih =>
    by_cases h : c.id = x
    · exact ⟨{ c with embedding := some emb }, by simp [setEmbeddingById, h], h, rfl⟩
    · have hx2 : x ∈ cs.map (fun c => c.id) := by
        simp only [List.map_cons, List.mem_cons] at hx
        rcases hx with h1 | h2
        · exact absurd h1.symm h
        · exact h2
      obtain ⟨d, hd, hdi, hde⟩ := ih hx2
      refine ⟨d, ?_, hdi, hde⟩
      simp only [setEmbeddingById, if_neg h]
      exact List.mem_cons_of_mem c hd

theorem setEmbeddingById_mem_preserved (x : String) (emb : List ℚ) (l : List CodeChunk)
    (d : CodeChunk) (hd : d ∈ l) (hne : d.id ≠ x) :
    d ∈ setEmbeddingById x emb l := by
  induction l with
  | nil => simp at hd
  | cons c cs ih =>
    rcases List.mem_cons.mp hd with rfl | hd2
    · by_cases h : d.id = x
      · exact absurd h hne
      · simp [setEmbeddingById, h]
    · by_cases h : c.id = x
      · simp only [setEmbeddingById, if_pos h]
        exact List.mem_cons_of_mem _ hd2
      · simp only [setEmbeddingById, if_neg h]
        exact List.mem_cons_of_mem c (ih hd2)

theorem storeEmbeddings_mem_preserved (chunks : List CodeChunk) (results : List EmbeddingResult)
    (d : CodeChunk) (hd : d ∈ chunks) (hne : ∀ r ∈ results, r.chunkId ≠ d.id) :
    d ∈ storeEmbeddings chunks results := by
  induction results generalizing chunks with
  | nil => exact hd
  | cons r rs ih =>
    have h1 : d ∈ setEmbeddingById r.chunkId r.embedding chunks :=
      setEmbeddingById_mem_preserved r.chunkId r.embedding chunks d hd
        (fun hdx => hne r (List.mem_cons_self r rs) hdx.symm)
    exact ih _ h1 fun r2 hr2 => hne r2 (List.mem_cons_of_mem r hr2)

/-- C5: during bulk embedding generation a provider failure on one fragment
does not abort the file — every fragment on which the provider succeeds still
yields its result, and (for a fragment whose id is unique in the file, as the
chunker guarantees) the persisted file carries its new vector; likewise a
failure of the per-file step for one file leaves the session loop processing
all remaining files. -/
theorem c5_partial_failure (provider : String → Except Unit (List ℚ)) (file : FileRec) :
    (∀ c ∈ file.chunks, ∀ e, provider c.content = .ok e →
      ({ chunkId := c.id, embedding := e, content := c.content } : EmbeddingResult) ∈
        (generateEmbeddingsForFile provider file).1) ∧
    (∀ c ∈ file.chunks, ∀ e, provider c.content = .ok e →
      file.chunks.countP (fun d => d.id == c.id) = 1 →
      ∃ d ∈ (generateEmbeddingsForFile provider file).2.chunks,
        d.id = c.id ∧ d.embedding = some e) ∧
    (∀ step : FileRec → Except Unit FileRec, ∀ f : FileRec, ∀ fs : List FileRec,
      step f = .error () →
      generateEmbeddingsForSession step (f :: fs) =
        f :: generateEmbeddingsForSession step fs) := by
  refine ⟨?_, ?_, ?_⟩
  · intro c hc e he
    exact collectEmbeddings_mem provider file.chunks c e hc he
  · intro c hc e he hcount
    have hr0 := collectEmbeddings_mem provider file.chunks c e hc he
    set results := collectEmbeddings provider file.chunks with hres
    set r0 : EmbeddingResult := { chunkId := c.id, embedding := e, content := c.content }
      with hr0def
    have hcle : results.countP (fun r => r.chunkId == c.id) ≤ 1 := by
      rw [← hcount]
      exact collectEmbeddings_countP provider file.chunks c.id
    obtain ⟨rs1, rs2, hsplit⟩ := List.append_of_mem hr0
    have hzero : ∀ r ∈ rs2, r.chunkId ≠ c.id := by
      intro r hr hrc
      have hcge : 2 ≤ results.countP (fun r => r.chunkId == c.id) := by
        rw [hsplit]
        simp only [List.countP_append, List.countP_cons]
        have h2 : 0 < rs2.countP (fun r => r.chunkId == c.id) :=
          List.countP_pos_iff.mpr ⟨r, hr, by simp [hrc]⟩
        simp [hr0def]
        omega
      omega
    have hfold : storeEmbeddings file.chunks results =
        storeEmbeddings (setEmbeddingById r0.chunkId r0.embedding
          (storeEmbeddings file.chunks rs1)) rs2 := by
      rw [hsplit]
      simp [storeEmbeddings, List.foldl_append]
    have hcid : c.id ∈ (storeEmbeddings file.chunks rs1).map (fun d => d.id) := by
      rw [storeEmbeddings_ids]
      exact List.mem_map_of_mem (fun d => d.id) hc
    obtain ⟨d, hd, hdi, hde⟩ :=
      setEmbeddingById_sets c.id e (storeEmbeddings file.chunks rs1) hcid
    have hd2 : d ∈ storeEmbeddings (setEmbeddingById c.id e
        (storeEmbeddings file.chunks rs1)) rs2 :=
      storeEmbeddings_mem_preserved _ rs2 d hd fun r hr => by
        rw [hdi]
        exact hzero r hr
    refine ⟨d, ?_, hdi, hde⟩
    show d ∈ storeEmbeddings file.chunks results
    rw [hfold]
    exact hd2
  · intro step f fs hstep
    simp [generateEmbeddingsForSession, applyFileStep, hstep]

/-- C5 witness: a provider that fails on the first chunk's text and succeeds
on the second still returns and persists the second fragment's vector, and a
session step that always fails leaves every file in place while the loop
continues. -/
theorem c5_partial_failure_witness :
    sampleChunkBare ∈ sampleFile.chunks ∧
    (fun s => if s = "y" then Except.ok [(2 : ℚ)] else Except.error ()) sampleChunkBare.content =
      Except.ok [(2 : ℚ)] ∧
    sampleFile.chunks.countP (fun d => d.id == sampleChunkBare.id) = 1 ∧
    ({ chunkId := "chunk_2", embedding := [2], content := "y" } : EmbeddingResult) ∈
      (generateEmbeddingsForFile
        (fun s => if s = "y" then Except.ok [(2 : ℚ)] else Except.error ()) sampleFile).1 ∧
    (∃ d ∈ (generateEmbeddingsForFile
        (fun s => if s = "y" then Except.ok [(2 : ℚ)] else Except.error ()) sampleFile).2.chunks,
      d.id = sampleChunkBare.id ∧ d.embedding = some [2]) ∧
    generateEmbeddingsForSession (fun _ => Except.error ()) [sampleFile] =
      sampleFile :: generateEmbeddingsForSession (fun _ => Except.error ()) [] := by
  have h := c5_partial_failure
    (fun s => if s = "y" then Except.ok [(2 : ℚ)] else Except.error ()) sampleFile
  refine ⟨by decide, rfl, by decide, ?_, ?_, ?_⟩
  · exact h.1 sampleChunkBare (by decide) [2] rfl
  · exact h.2.1 sampleChunkBare (by decide) [2] rfl (by decide)
  · exact h.2.2 (fun _ => Except.error ()) sampleFile [] rfl

/-! ### Claim C4 -/

theorem buildContext_ok_eq (sf uf : List FileRec) (hk : Bool)
    (emb : Except Unit (List SimilarityEntry)) :
    buildContextForQuery (.ok (sf, uf)) hk emb =
      (if (if sf.isEmpty then uf else sf).isEmpty then getEmptyContext
       else
         { relevantFiles := ((if sf.isEmpty then uf else sf).take 5).map fun f =>
             { name := f.originalName, language := f.language, content := truncateFileContent f.content, chunks := f.chunks.length }
           relevantChunks := (if hk then
             (match emb with
              | Except.ok cs => cs
              | Except.error _ => []) else []).map toRelevantChunk
           projectSummary := buildProjectSummary (if sf.isEmpty then uf else sf) }) := rfl

theorem buildPrompt_fallback (query : String) (ctx : CodeContext)
    (h0 : ctx.projectSummary.totalFiles ≠ 0)
    (hch : ctx.relevantChunks = [])
    (hrf : 0 < ctx.relevantFiles.length) :
    buildPromptWithContext query ctx =
      promptHeader ctx.projectSummary ++
        ("## Project Files\n" ++ fileSection 0 (ctx.relevantFiles.take 3)) ++
        questionSection query := by
  simp only [buildPromptWithContext, if_neg h0]
  rw [hch]
  simp [hrf, String.append_empty]

/-- C4: an error while embedding the query or ranking candidates is absorbed:
the context is still built, its ranked-match list is empty, the result is the
same context as a successful ranking with zero matches, the caller always
receives a resolved (non-error) result, and — when the session has files — the
prompt degrades to the project summary plus up to 3 raw truncated file
previews followed by the user question. -/
theorem c4_embedding_failure_graceful (sessionFiles unassignedFiles : List FileRec)
    (hasApiKey : Bool) (query : String) :
    (buildContextForQuery (.ok (sessionFiles, unassignedFiles)) hasApiKey (.error ())).relevantChunks = [] ∧
    buildContextForQuery (.ok (sessionFiles, unassignedFiles)) hasApiKey (.error ()) =
      buildContextForQuery (.ok (sessionFiles, unassignedFiles)) hasApiKey (.ok []) ∧
    buildContextForQueryResult (.ok (sessionFiles, unassignedFiles)) hasApiKey (.error ()) =
      .ok (buildContextForQuery (.ok (sessionFiles, unassignedFiles)) hasApiKey (.error ())) ∧
    ((buildContextForQuery (.ok (sessionFiles, unassignedFiles)) hasApiKey (.error ())).projectSummary.totalFiles ≠ 0 →
      buildPromptWithContext query
          (buildContextForQuery (.ok (sessionFiles, unassignedFiles)) hasApiKey (.error ())) =
        promptHeader (buildContextForQuery (.ok (sessionFiles, unassignedFiles)) hasApiKey (.error ())).projectSummary ++
          ("## Project Files\n" ++ fileSection 0
            ((buildContextForQuery (.ok (sessionFiles, unassignedFiles)) hasApiKey (.error ())).relevantFiles.take 3)) ++
          questionSection query) := by
  have hchunks :
      (buildContextForQuery (.ok (sessionFiles, unassignedFiles)) hasApiKey (.error ())).relevantChunks = [] := by
    rw [buildContext_ok_eq]
    by_cases hFe : (if sessionFiles.isEmpty then unassignedFiles else sessionFiles).isEmpty
    · rw [if_pos hFe]
      rfl
    · rw [if_neg hFe]
      cases hasApiKey <;> rfl
  have hsame :
      buildContextForQuery (.ok (sessionFiles, unassignedFiles)) hasApiKey (.error ()) =
        buildContextForQuery (.ok (sessionFiles, unassignedFiles)) hasApiKey (.ok []) := by
    cases hasApiKey <;> rfl
  refine ⟨hchunks, hsame, rfl, ?_⟩
  intro hne
  by_cases hFe : (if sessionFiles.isEmpty then unassignedFiles else sessionFiles).isEmpty
  · rw [buildContext_ok_eq, if_pos hFe] at hne
    exact absurd rfl hne
  · apply buildPrompt_fallback query _ hne hchunks
    rw [buildContext_ok_eq, if_neg hFe]
    have hne2 : ¬(if sessionFiles.isEmpty then unassignedFiles else sessionFiles) = [] := by
      intro hnil
      rw [hnil] at hFe
      simp at hFe
    have hpos := List.length_pos.mpr hne2
    show 0 < (((if sessionFiles.isEmpty then unassignedFiles else sessionFiles).take 5).map _).length
    rw [List.length_map, List.length_take]
    omega

/-- C4 witness: with one session file and a failing embedding pipeline, the
context has no ranked matches and the prompt falls back to the raw-file
preview block. -/
theorem c4_embedding_failure_graceful_witness :
    (buildContextForQuery (.ok ([sampleFile], [])) true (.error ())).relevantChunks = [] ∧
    buildPromptWithContext "hi" (buildContextForQuery (.ok ([sampleFile], [])) true (.error ())) =
      promptHeader (buildContextForQuery (.ok ([sampleFile], [])) true (.error ())).projectSummary ++
        ("## Project Files\n" ++ fileSection 0
          ((buildContextForQuery (.ok ([sampleFile], [])) true (.error ())).relevantFiles.take 3)) ++
        questionSection "hi" := by
  have h := c4_embedding_failure_graceful [sampleFile] [] true "hi"
  exact ⟨h.1, h.2.2.2 (by decide)⟩

/-! ### Claim C6 -/

/-- C6: every file-content block placed into an assembled context is the
source file's content passed through the 2000-character truncation: content of
2000 characters or fewer is included verbatim; longer content is cut to
exactly 2000 characters with the "[Content truncated]" marker appended. -/
theorem c6_content_truncation (fetched : Except Unit (List FileRec × List FileRec))
    (hasApiKey : Bool) (embedOutcome : Except Unit (List SimilarityEntry)) :
    ∀ rf ∈ (buildContextForQuery fetched hasApiKey embedOutcome).relevantFiles,
      ∃ s : String, rf.content = truncateFileContent s ∧
        ((s.length ≤ 2000 ∧ truncateFileContent s = s) ∨
         (s.length > 2000 ∧
           truncateFileContent s = strTake s 2000 ++ "...\n[Content truncated]" ∧
           (strTake s 2000).length = 2000)) := by
  intro rf hrf
  have hsrc : ∃ f : FileRec, rf.content = truncateFileContent f.content := by
    cases fetched with
    | error u => simp [buildContextForQuery, getEmptyContext] at hrf
    | ok p =>
      obtain ⟨sf, uf⟩ := p
      rw [buildContext_ok_eq] at hrf
      by_cases hFe : (if sf.isEmpty then uf else sf).isEmpty
      · rw [if_pos hFe] at hrf
        simp [getEmptyContext] at hrf
      · rw [if_neg hFe] at hrf
        have hrf2 : rf ∈ ((if sf.isEmpty then uf else sf).take 5).map fun f =>
            ({ name := f.originalName, language := f.language, content := truncateFileContent f.content, chunks := f.chunks.length } : RelevantFile) := hrf
        rw [List.mem_map] at hrf2
        obtain ⟨f, _, hfrf⟩ := hrf2
        exact ⟨f, by rw [← hfrf]⟩
  obtain ⟨f, hfc⟩ := hsrc
  refine ⟨f.content, hfc, ?_⟩
  by_cases hlen : f.content.length > 2000
  · right
    refine ⟨hlen, by simp [truncateFileContent, hlen], ?_⟩
    have he1 : (strTake f.content 2000).length = (f.content.data.take 2000).length := rfl
    have he2 : f.content.length = f.content.data.length := rfl
    rw [he1, List.length_take]
    omega
  · left
    exact ⟨by omega, by simp [truncateFileContent, hlen]⟩

/-- C6 witness: the sample file's 1-character content is included verbatim. -/
theorem c6_content_truncation_witness :
    ∃ s : String,
      ({ name := "a.ts", language := "typescript", content := "x", chunks := 2 } : RelevantFile).content =
        truncateFileContent s ∧
      ((s.length ≤ 2000 ∧ truncateFileContent s = s) ∨
       (s.length > 2000 ∧
         truncateFileContent s = strTake s 2000 ++ "...\n[Content truncated]" ∧
         (strTake s 2000).length = 2000)) :=
  c6_content_truncation (.ok ([sampleFile], [])) false (.error ())
    { name := "a.ts", language := "typescript", content := "x", chunks := 2 } (by decide)

/-! ### Claim C8 -/

/-- C8 counterexample: when resolving the session's files fails with a
file-store error, `buildContextForQuery` does not propagate the failure — the
caller receives a resolved empty context, never an error. -/
theorem c8_counterexample :
    buildContextForQueryResult (.error ()) false (.error ()) = .ok getEmptyContext ∧
    buildContextForQueryResult (.error ()) false (.error ()) ≠ .error () := by
  constructor
  · rfl
  · simp [buildContextForQueryResult]

/-- C8 (amended): a file-store failure while resolving the session's files is
caught by the outer handler of `buildContextForQuery`, which returns the
explicitly empty context to its caller; no failure propagates upward. -/
theorem c8_store_failure_absorbed (hasApiKey : Bool)
    (embedOutcome : Except Unit (List SimilarityEntry)) (e : Unit) :
    buildContextForQueryResult (.error e) hasApiKey embedOutcome = .ok getEmptyContext := rfl
